import Mathlib

/-!
Verification of the libntstm I/O core (io.cpp, io.hpp, fdio.hpp, bufio.hpp).

A shallow embedding of the libntstm I/O layer:

* `NtIoErrorCode` — the error-code enumeration of `io.hpp`.
* `Errno` — the platform errno values distinguished by the `switch` in
  `NtIoFileStreamErrnoCheck` (io.cpp), with a catch-all for every other value.
* `NtIoFileStreamErrnoCheck` — the errno classifier; the C function always
  throws, so here it totally returns the thrown `NtIoErrorCode`.
* `NtIoFileStream.read` / `NtIoFileStream.write` — the full-transfer loops of
  io.cpp, with the underlying POSIX `::read`/`::write` calls modelled by an
  oracle: a list of per-attempt results, each an `Int` return value paired
  with the errno left by the call.
* `NtIoInputBuffer` / `NtIoInputBuffer.read` — the fixed read buffer; the
  `buffer` pointer of the C object is modelled as a base region (`region`)
  plus an offset (`off`), and its remaining `size` field is kept as in the
  source.
* `NtIoOutputBuffer` / `NtIoOutputBuffer.write` — the growable write buffer
  over `std::vector<int8_t>`; the vector is modelled by its contents
  (`buffer`, whose length is `buffer.size()`) and its capacity (`cap`).
  The possible `length_error`/`bad_alloc` failures of `std::vector::reserve`
  are modelled by an allocation oracle `canAlloc`; on failure the vector is
  unchanged (the strong guarantee of `reserve`), matching the `throw` before
  any mutation in the source.

Bytes carry no arithmetic in this code (they are only copied), so a byte is
`Fin 256`. Size arithmetic (`size_t`) is modelled on `Nat`; the one place
where wrap-around matters — the bit-mask capacity rounding expression — is
additionally given a `w`-bit model `roundToStepW` with explicit `% 2^w`.
-/

/-- The error codes of `enum NtIoErrorCode` in io.hpp. -/
inductive NtIoErrorCode where
  | eioInvalidHandle
  | eioPermission
  | eioStreamClosed
  | eioNonBlocking
  | eioInterrupted
  | eioAllocation
  | eioMalformed
  deriving DecidableEq, Repr

/-- The errno values distinguished by the `switch` of
`NtIoFileStreamErrnoCheck` in io.cpp, plus a catch-all `eother` for every
errno value not named by a `case` label. -/
inductive Errno where
  | eperm
  | eio
  | epipe
  | eagain
  | ewouldblock
  | eintr
  | ebadf
  | einval
  | eisdir
  | eother (code : Nat)
  deriving DecidableEq, Repr

/-- io.cpp lines 37-69: `static void NtIoFileStreamErrnoCheck()`.
The C function switches on `errno` and always throws; here it returns the
`NtIoErrorCode` carried by the thrown `NtIoException`. -/
def NtIoFileStreamErrnoCheck : Errno → NtIoErrorCode
  | .eperm => .eioPermission
  | .eio => .eioStreamClosed
  | .epipe => .eioStreamClosed
  | .eagain => .eioNonBlocking
  | .ewouldblock => .eioNonBlocking
  | .eintr => .eioInterrupted
  | .ebadf => .eioInvalidHandle
  | .einval => .eioInvalidHandle
  | .eisdir => .eioInvalidHandle
  | .eother _ => .eioInvalidHandle

/-- One underlying `::read`/`::write` attempt, as seen by the loops of
io.cpp: the `ssize_t` return value, paired with the errno the call leaves
behind (consulted only when the loop calls `NtIoFileStreamErrnoCheck`). -/
abbrev Attempt := Int × Errno

/-- Outcome of running a full-transfer loop of io.cpp against a finite
oracle of attempt results. -/
inductive FileOutcome where
  /-- The loop exited normally having transferred `transferred` bytes. -/
  | completed (transferred : Nat)
  /-- The loop threw `NtIoException` with this error code. -/
  | raised (code : NtIoErrorCode)
  /-- The oracle ran out while the loop still wanted more bytes. -/
  | pending (transferred : Nat)
  deriving DecidableEq, Repr

/-- io.cpp lines 77-91: the `while(readSize < size)` loop of
`NtIoFileStream::read`, consuming one oracle entry per `::read` call.
`readSize` is the accumulator of the source. -/
def fileReadLoop (size : Nat) (attempts : List Attempt) (readSize : Nat) :
    FileOutcome :=
  if readSize < size then
    match attempts with
    | [] => .pending readSize
    | (newSize, e) :: rest =>
      if 0 < newSize then fileReadLoop size rest (readSize + newSize.toNat)
      else if newSize = 0 then .raised .eioStreamClosed
      else .raised (NtIoFileStreamErrnoCheck e)
  else .completed readSize

/-- io.cpp lines 72-92: `NtIoFileStream::read(buffer, size)`, with the
underlying `::read` results supplied by `attempts`. -/
def NtIoFileStream.read (size : Nat) (attempts : List Attempt) : FileOutcome :=
  fileReadLoop size attempts 0

/-- io.cpp lines 100-111: the `while(writeSize < size)` loop of
`NtIoFileStream::write`. Unlike the read loop, a zero return is not treated
as end of stream: any non-positive return goes to `NtIoFileStreamErrnoCheck`. -/
def fileWriteLoop (size : Nat) (attempts : List Attempt) (writeSize : Nat) :
    FileOutcome :=
  if writeSize < size then
    match attempts with
    | [] => .pending writeSize
    | (newSize, e) :: rest =>
      if 0 < newSize then fileWriteLoop size rest (writeSize + newSize.toNat)
      else .raised (NtIoFileStreamErrnoCheck e)
  else .completed writeSize

/-- io.cpp lines 95-112: `NtIoFileStream::write(buffer, size)`. -/
def NtIoFileStream.write (size : Nat) (attempts : List Attempt) : FileOutcome :=
  fileWriteLoop size attempts 0

/-- An oracle is valid for a run when each `::read` return value does not
exceed the count requested at that attempt (`size - readSize`), which POSIX
guarantees. Attempts past loop exit and error returns are unconstrained. -/
def validFrom (size : Nat) (attempts : List Attempt) (readSize : Nat) : Bool :=
  match attempts with
  | [] => true
  | (newSize, _) :: rest =>
    if readSize < size then
      decide (newSize.toNat ≤ size - readSize) &&
        validFrom size rest (readSize + newSize.toNat)
    else true

/-- A byte (`int8_t` contents are only ever copied, never computed on). -/
abbrev Byte := Fin 256

/-- bufio.hpp: `class NtIoInputBuffer`. The C object holds a raw pointer
`buffer` and a remaining `size`; the pointer is modelled as the base region
it points into (`region`) plus the current offset (`off`). -/
structure NtIoInputBuffer where
  region : List Byte
  off : Nat
  size : Nat
  deriving DecidableEq, Repr

/-- bufio.hpp constructor `NtIoInputBuffer(buffer, size)` applied to a whole
region, as in `NtIoInputBuffer(out.data(), out.size())`. -/
def NtIoInputBuffer.ofSpan (region : List Byte) : NtIoInputBuffer :=
  { region := region, off := 0, size := region.length }

/-- io.cpp lines 121-131: `NtIoInputBuffer::read(requestBuffer, requestSize)`.
Returns the bytes copied out (the `memcpy` destination contents) together
with the object state after the call; on throw the object is untouched
because the `throw` precedes every mutation in the source. -/
def NtIoInputBuffer.read (b : NtIoInputBuffer) (requestSize : Nat) :
    Except NtIoErrorCode (List Byte) × NtIoInputBuffer :=
  if requestSize > b.size then
    (.error .eioStreamClosed, b)
  else
    (.ok ((b.region.drop b.off).take requestSize),
     { b with off := b.off + requestSize, size := b.size - requestSize })

/-- bufio.hpp: `class NtIoOutputBuffer`. The `std::vector<int8_t> buffer` is
modelled by its contents (`buffer`, so `buffer.size()` is `buffer.length`)
and its capacity `cap`. -/
structure NtIoOutputBuffer where
  buffer : List Byte
  cap : Nat
  memoryStepping : Nat
  deriving DecidableEq, Repr

/-- io.cpp line 134: the constructor leaves the vector default-initialised
(empty contents, zero capacity) and stores `memoryStepping` (default 5). -/
def NtIoOutputBuffer.init (memoryStepping : Nat) : NtIoOutputBuffer :=
  { buffer := [], cap := 0, memoryStepping := memoryStepping }

/-- fdio.hpp line 117 (bufio.hpp): `stepSize() { return 1 << (memoryStepping + 1); }`. -/
def NtIoOutputBuffer.stepSize (b : NtIoOutputBuffer) : Nat :=
  2 ^ (b.memoryStepping + 1)

/-- io.cpp line 147: the bit-mask rounding expression
`((newSize + maskStepSize) | maskStepSize) ^ maskStepSize`, on ideal
(unbounded) naturals. -/
def roundToStep (newSize maskStepSize : Nat) : Nat :=
  ((newSize + maskStepSize) ||| maskStepSize) ^^^ maskStepSize

/-- The same expression under `w`-bit (`size_t`) wrap-around arithmetic:
the sum is reduced `% 2 ^ w`; the `|` and `^` of values below `2 ^ w` never
leave the range, so no further reduction occurs. -/
def roundToStepW (w newSize maskStepSize : Nat) : Nat :=
  (((newSize + maskStepSize) % 2 ^ w) ||| maskStepSize) ^^^ maskStepSize

/-- io.cpp lines 140-164: `NtIoOutputBuffer::write(requestBuffer, requestSize)`.
`data` is the `requestSize` bytes at `requestBuffer`. `canAlloc` models
whether `buffer.reserve(newContainerSize)` succeeds; on failure the source
throws `eioAllocation` with the vector unchanged. Returns the result of the
call together with the object state after the call. -/
def NtIoOutputBuffer.write (canAlloc : Nat → Bool) (b : NtIoOutputBuffer)
    (data : List Byte) : Except NtIoErrorCode Unit × NtIoOutputBuffer :=
  if data.length = 0 then (.ok (), b)
  else
    let oldSize := b.buffer.length
    let newSize := oldSize + data.length
    let maskStepSize := b.stepSize - 1
    let newContainerSize := roundToStep newSize maskStepSize
    if b.cap < newContainerSize then
      if canAlloc newContainerSize then
        (.ok (), { b with buffer := b.buffer ++ data, cap := newContainerSize })
      else
        (.error .eioAllocation, b)
    else
      (.ok (), { b with buffer := b.buffer ++ data })

/-- An allocation oracle under which `reserve` always succeeds. -/
def allocOk : Nat → Bool := fun _ => true

/-- A sequence of `write` calls, one per chunk, stopping at the first
thrown exception. -/
def NtIoOutputBuffer.writeSeq (canAlloc : Nat → Bool) (b : NtIoOutputBuffer) :
    List (List Byte) → Except NtIoErrorCode NtIoOutputBuffer
  | [] => .ok b
  | c :: rest =>
    match NtIoOutputBuffer.write canAlloc b c with
    | (.ok _, b') => NtIoOutputBuffer.writeSeq canAlloc b' rest
    | (.error code, _) => .error code

/-- The capacity invariant maintained by `write`: capacity divisible by
the step size and at least the content length. -/
def CapInv (b : NtIoOutputBuffer) : Prop :=
  b.stepSize ∣ b.cap ∧ b.buffer.length ≤ b.cap

/-! ## Arithmetic of the bit-mask rounding -/

/-- The `testBit` of a right shift by a power of two, phrased on division. -/
theorem testBit_div_two_pow (x k j : Nat) :
    (x / 2 ^ k).testBit j = x.testBit (k + j) := by
  rw [← Nat.shiftRight_eq_div_pow, Nat.testBit_shiftRight]

/-- Or-ing the low mask `2 ^ k - 1` in and xor-ing it out clears the low
`k` bits: the result is `x` rounded down to a multiple of `2 ^ k`. -/
theorem lor_xor_mask_eq (x k : Nat) :
    ((x ||| (2 ^ k - 1)) ^^^ (2 ^ k - 1)) = 2 ^ k * (x / 2 ^ k) := by
  apply Nat.eq_of_testBit_eq
  intro i
  rw [Nat.testBit_xor, Nat.testBit_or, Nat.testBit_two_pow_sub_one,
    Nat.testBit_mul_pow_two, testBit_div_two_pow]
  rcases Nat.lt_or_ge i k with h | h
  · simp [h, Nat.not_le_of_lt h]
  · simp [Nat.not_lt_of_le h, h, Nat.add_sub_cancel' h]

/-- A value below `2 ^ k` disappears into the mask `2 ^ k - 1`. -/
theorem lor_mask_of_lt (x k : Nat) (h : x < 2 ^ k) :
    x ||| (2 ^ k - 1) = 2 ^ k - 1 := by
  apply Nat.eq_of_testBit_eq
  intro i
  rw [Nat.testBit_or, Nat.testBit_two_pow_sub_one]
  rcases Nat.lt_or_ge i k with hi | hi
  · simp [hi]
  · have hx : x < 2 ^ i :=
      lt_of_lt_of_le h (Nat.pow_le_pow_right (by norm_num) hi)
    simp [Nat.not_lt_of_le hi, Nat.testBit_lt_two_pow hx]

/-- The rounding expression of io.cpp line 147 computes the least multiple
of `2 ^ k` that dominates `newSize` (on ideal naturals). -/
theorem roundToStep_least_multiple (n k : Nat) :
    2 ^ k ∣ roundToStep n (2 ^ k - 1) ∧
    n ≤ roundToStep n (2 ^ k - 1) ∧
    ∀ m, 2 ^ k ∣ m → n ≤ m → roundToStep n (2 ^ k - 1) ≤ m := by
  have hpos : 0 < 2 ^ k := Nat.two_pow_pos k
  unfold roundToStep
  rw [lor_xor_mask_eq]
  refine ⟨Dvd.intro _ rfl, ?_, ?_⟩
  · have hm := Nat.div_add_mod (n + (2 ^ k - 1)) (2 ^ k)
    have hr : (n + (2 ^ k - 1)) % 2 ^ k < 2 ^ k :=
      Nat.mod_lt _ hpos
    omega
  · intro m hdvd hnm
    obtain ⟨c, rfl⟩ := hdvd
    have hle : n + (2 ^ k - 1) ≤ 2 ^ k * c + (2 ^ k - 1) := by omega
    have hq := Nat.div_le_div_right (c := 2 ^ k) hle
    rw [Nat.mul_add_div hpos,
      Nat.div_eq_of_lt (show 2 ^ k - 1 < 2 ^ k by omega)] at hq
    exact Nat.mul_le_mul_left _ (by omega)

/-- Without overflow of the sum, the `w`-bit rounding expression agrees
with the ideal one. -/
theorem roundToStepW_eq_of_no_overflow (w n mask : Nat)
    (h : n + mask < 2 ^ w) :
    roundToStepW w n mask = roundToStep n mask := by
  unfold roundToStepW roundToStep
  rw [Nat.mod_eq_of_lt h]

/-- When the sum wraps around, the `w`-bit rounding expression collapses
to zero. -/
theorem roundToStepW_overflow_eq_zero (w n k : Nat) (hkw : k ≤ w)
    (hn : n < 2 ^ w) (hov : 2 ^ w ≤ n + (2 ^ k - 1)) :
    roundToStepW w n (2 ^ k - 1) = 0 := by
  have hkpow : 2 ^ k ≤ 2 ^ w := Nat.pow_le_pow_right (by norm_num) hkw
  have hwpos : 0 < 2 ^ w := Nat.two_pow_pos w
  have hkpos : 0 < 2 ^ k := Nat.two_pow_pos k
  unfold roundToStepW
  have hx : (n + (2 ^ k - 1)) % 2 ^ w = n + (2 ^ k - 1) - 2 ^ w := by
    rw [Nat.mod_eq_sub_mod hov, Nat.mod_eq_of_lt (by omega)]
  rw [hx, lor_mask_of_lt _ _ (by omega), Nat.xor_self]

/-! ## The full-transfer loops -/

/-- A positive `::read` return advances the accumulator and loops. -/
theorem fileReadLoop_cons_pos (size acc : Nat) (n : Int) (e : Errno)
    (rest : List Attempt) (hacc : acc < size) (hn : 0 < n) :
    fileReadLoop size ((n, e) :: rest) acc =
      fileReadLoop size rest (acc + n.toNat) := by
  rw [fileReadLoop]
  simp [hacc, hn]

/-- A zero `::read` return raises `eioStreamClosed` at once. -/
theorem fileReadLoop_cons_zero (size acc : Nat) (e : Errno)
    (rest : List Attempt) (hacc : acc < size) :
    fileReadLoop size (((0 : Int), e) :: rest) acc =
      .raised .eioStreamClosed := by
  rw [fileReadLoop]
  simp [hacc]

/-- A negative `::read` return raises the classification of errno. -/
theorem fileReadLoop_cons_neg (size acc : Nat) (n : Int) (e : Errno)
    (rest : List Attempt) (hacc : acc < size) (hn : n < 0) :
    fileReadLoop size ((n, e) :: rest) acc =
      .raised (NtIoFileStreamErrnoCheck e) := by
  rw [fileReadLoop]
  have h0 : ¬ (0 : Int) < n := by omega
  have h1 : n ≠ 0 := by omega
  simp [hacc, h0, h1]

/-- The read loop never exits normally below the requested size. -/
theorem fileReadLoop_completed_ge (size : Nat) (attempts : List Attempt)
    (acc t : Nat) (h : fileReadLoop size attempts acc = .completed t) :
    size ≤ t := by
  induction attempts generalizing acc with
  | nil =>
    rw [fileReadLoop] at h
    by_cases hc : acc < size <;> simp [hc] at h
    omega
  | cons a rest ih =>
    obtain ⟨n, e⟩ := a
    rw [fileReadLoop] at h
    by_cases hc : acc < size
    · simp only [if_pos hc] at h
      by_cases hp : 0 < n
      · rw [if_pos hp] at h
        exact ih _ h
      · by_cases hz : n = 0 <;> simp [hp, hz] at h
    · simp [hc] at h
      omega

/-- With a POSIX-valid oracle the loop exits having transferred exactly
the requested size. -/
theorem fileReadLoop_completed_exact (size : Nat) (attempts : List Attempt)
    (acc t : Nat) (hacc : acc ≤ size)
    (hv : validFrom size attempts acc = true)
    (h : fileReadLoop size attempts acc = .completed t) : t = size := by
  induction attempts generalizing acc with
  | nil =>
    rw [fileReadLoop] at h
    by_cases hc : acc < size <;> simp [hc] at h
    omega
  | cons a rest ih =>
    obtain ⟨n, e⟩ := a
    rw [fileReadLoop] at h
    rw [validFrom] at hv
    by_cases hc : acc < size
    · simp only [if_pos hc] at h
      rw [if_pos hc, Bool.and_eq_true, decide_eq_true_eq] at hv
      by_cases hp : 0 < n
      · rw [if_pos hp] at h
        exact ih _ (by omega) hv.2 h
      · by_cases hz : n = 0 <;> simp [hp, hz] at h
    · simp [hc] at h
      omega

/-! ## Output-buffer helper lemmas -/

/-- Under a never-failing allocator every `write` succeeds, appends its
bytes at the tail and preserves the stepping. -/
theorem write_allocOk_spec (b : NtIoOutputBuffer) (data : List Byte) :
    (NtIoOutputBuffer.write allocOk b data).1 = .ok () ∧
    (NtIoOutputBuffer.write allocOk b data).2.buffer = b.buffer ++ data ∧
    (NtIoOutputBuffer.write allocOk b data).2.memoryStepping =
      b.memoryStepping := by
  unfold NtIoOutputBuffer.write
  by_cases h0 : data.length = 0
  · rw [List.length_eq_zero] at h0
    simp [h0]
  · simp only [h0, if_false, allocOk]
    split <;> simp

/-- A `writeSeq` under `allocOk` never throws and concatenates all chunks. -/
theorem writeSeq_allocOk_spec (b : NtIoOutputBuffer)
    (chunks : List (List Byte)) :
    ∃ b', NtIoOutputBuffer.writeSeq allocOk b chunks = .ok b' ∧
      b'.buffer = b.buffer ++ chunks.flatten ∧
      b'.memoryStepping = b.memoryStepping := by
  induction chunks generalizing b with
  | nil => exact ⟨b, rfl, by simp, rfl⟩
  | cons c rest ih =>
    have hw := write_allocOk_spec b c
    rw [NtIoOutputBuffer.writeSeq]
    rcases hwp : NtIoOutputBuffer.write allocOk b c with ⟨r, b2⟩
    rw [hwp] at hw
    simp only at hw
    obtain ⟨hr, hbuf, hstep⟩ := hw
    subst hr
    obtain ⟨b', hseq, hbuf', hstep'⟩ := ih b2
    exact ⟨b', hseq,
      by rw [hbuf', hbuf, List.flatten_cons, List.append_assoc],
      by rw [hstep', hstep]⟩

/-- Every `write` call (under any allocator) preserves the capacity
invariant, whether it throws or succeeds. -/
theorem write_preserves_capInv (canAlloc : Nat → Bool)
    (b : NtIoOutputBuffer) (data : List Byte) (hb : CapInv b) :
    CapInv (NtIoOutputBuffer.write canAlloc b data).2 := by
  obtain ⟨hdvd, hlen⟩ := hb
  unfold NtIoOutputBuffer.write
  by_cases h0 : data.length = 0
  · simpa [h0] using ⟨hdvd, hlen⟩
  · simp only [h0, if_false]
    have hspec := roundToStep_least_multiple
      (b.buffer.length + data.length) (b.memoryStepping + 1)
    have hmask : b.stepSize - 1 = 2 ^ (b.memoryStepping + 1) - 1 := rfl
    rw [← hmask] at hspec
    split
    · split
      · exact ⟨hspec.1, by simpa using hspec.2.1⟩
      · exact ⟨hdvd, hlen⟩
    · refine ⟨hdvd, ?_⟩
      simp only [CapInv, List.length_append]
      omega

/-- A `write` never changes the stepping field, whatever the allocator does. -/
theorem write_memoryStepping (canAlloc : Nat → Bool) (b : NtIoOutputBuffer)
    (data : List Byte) :
    (NtIoOutputBuffer.write canAlloc b data).2.memoryStepping =
      b.memoryStepping := by
  unfold NtIoOutputBuffer.write
  by_cases h0 : data.length = 0
  · simp [h0]
  · simp only [h0, if_false]
    split
    · split <;> rfl
    · rfl

/-- A successful `writeSeq` never changes the stepping field. -/
theorem writeSeq_memoryStepping (canAlloc : Nat → Bool)
    (chunks : List (List Byte)) (b b' : NtIoOutputBuffer)
    (h : NtIoOutputBuffer.writeSeq canAlloc b chunks = .ok b') :
    b'.memoryStepping = b.memoryStepping := by
  induction chunks generalizing b with
  | nil =>
    rw [NtIoOutputBuffer.writeSeq] at h
    simp only [Except.ok.injEq] at h
    rw [← h]
  | cons c rest ih =>
    rw [NtIoOutputBuffer.writeSeq] at h
    have hstep := write_memoryStepping canAlloc b c
    rcases hwp : NtIoOutputBuffer.write canAlloc b c with ⟨r, b2⟩
    rw [hwp] at h hstep
    cases r with
    | ok _ => exact (ih b2 h).trans hstep
    | error code => simp at h

/-- A successful `writeSeq` preserves the capacity invariant. -/
theorem writeSeq_preserves_capInv (canAlloc : Nat → Bool)
    (chunks : List (List Byte)) (b b' : NtIoOutputBuffer) (hb : CapInv b)
    (h : NtIoOutputBuffer.writeSeq canAlloc b chunks = .ok b') :
    CapInv b' := by
  induction chunks generalizing b with
  | nil =>
    rw [NtIoOutputBuffer.writeSeq] at h
    simp only [Except.ok.injEq] at h
    rw [← h]
    exact hb
  | cons c rest ih =>
    rw [NtIoOutputBuffer.writeSeq] at h
    have h2 := write_preserves_capInv canAlloc b c hb
    rcases hwp : NtIoOutputBuffer.write canAlloc b c with ⟨r, b2⟩
    rw [hwp] at h h2
    cases r with
    | ok _ => exact ih b2 h2 h
    | error code => simp at h

/-! ## Claim theorems -/

/-- C1: for `NtIoFileStream::read(buffer, size)` over an arbitrary sequence
of per-attempt results, a positive count `n` advances progress by `n` and
the loop continues; a zero count raises StreamClosed immediately regardless
of prior progress; a negative count raises the error classified from errno;
a completed run never transfers fewer than `size` bytes, and with a
POSIX-valid oracle it transfers exactly `size` bytes. -/
theorem ntIoFileStream_read_full_transfer :
    (∀ (size acc : Nat) (n : Int) (e : Errno) (rest : List Attempt),
      acc < size → 0 < n →
      fileReadLoop size ((n, e) :: rest) acc =
        fileReadLoop size rest (acc + n.toNat)) ∧
    (∀ (size acc : Nat) (e : Errno) (rest : List Attempt), acc < size →
      fileReadLoop size (((0 : Int), e) :: rest) acc =
        .raised .eioStreamClosed) ∧
    (∀ (size acc : Nat) (n : Int) (e : Errno) (rest : List Attempt),
      acc < size → n < 0 →
      fileReadLoop size ((n, e) :: rest) acc =
        .raised (NtIoFileStreamErrnoCheck e)) ∧
    (∀ (size : Nat) (attempts : List Attempt) (t : Nat),
      NtIoFileStream.read size attempts = .completed t → size ≤ t) ∧
    (∀ (size : Nat) (attempts : List Attempt) (t : Nat),
      validFrom size attempts 0 = true →
      NtIoFileStream.read size attempts = .completed t → t = size) :=
  ⟨fileReadLoop_cons_pos, fileReadLoop_cons_zero, fileReadLoop_cons_neg,
    fun size attempts t h => fileReadLoop_completed_ge size attempts 0 t h,
    fun size attempts t hv h =>
      fileReadLoop_completed_exact size attempts 0 t (Nat.zero_le _) hv h⟩

/-- Witness for C1 at concrete inputs. -/
theorem ntIoFileStream_read_full_transfer_witness :
    fileReadLoop 5 [((2 : Int), Errno.eintr)] 1 =
      fileReadLoop 5 [] (1 + (2 : Int).toNat) ∧
    fileReadLoop 5 [((0 : Int), Errno.eperm)] 2 =
      .raised .eioStreamClosed ∧
    fileReadLoop 5 [((-1 : Int), Errno.eperm)] 2 =
      .raised (NtIoFileStreamErrnoCheck Errno.eperm) ∧
    (2 : Nat) ≤ 2 ∧ (2 : Nat) = 2 :=
  ⟨ntIoFileStream_read_full_transfer.1 5 1 2 Errno.eintr []
      (by decide) (by decide),
    ntIoFileStream_read_full_transfer.2.1 5 2 Errno.eperm [] (by decide),
    ntIoFileStream_read_full_transfer.2.2.1 5 2 (-1) Errno.eperm []
      (by decide) (by decide),
    ntIoFileStream_read_full_transfer.2.2.2.1 2 [((2 : Int), Errno.eintr)] 2
      (by decide),
    ntIoFileStream_read_full_transfer.2.2.2.2 2 [((2 : Int), Errno.eintr)] 2
      (by decide) (by decide)⟩

/-- C2: the errno classification maps EPERM to Permission, EIO and EPIPE to
StreamClosed, EAGAIN and EWOULDBLOCK to NonBlocking, EINTR to Interrupted,
and every other value (including EBADF, EINVAL, EISDIR) to InvalidHandle;
it always raises, and an EINTR-failed attempt surfaces as Interrupted with
no retry by the transfer loop. -/
theorem ntIoFileStreamErrnoCheck_table :
    NtIoFileStreamErrnoCheck .eperm = .eioPermission ∧
    NtIoFileStreamErrnoCheck .eio = .eioStreamClosed ∧
    NtIoFileStreamErrnoCheck .epipe = .eioStreamClosed ∧
    NtIoFileStreamErrnoCheck .eagain = .eioNonBlocking ∧
    NtIoFileStreamErrnoCheck .ewouldblock = .eioNonBlocking ∧
    NtIoFileStreamErrnoCheck .eintr = .eioInterrupted ∧
    NtIoFileStreamErrnoCheck .ebadf = .eioInvalidHandle ∧
    NtIoFileStreamErrnoCheck .einval = .eioInvalidHandle ∧
    NtIoFileStreamErrnoCheck .eisdir = .eioInvalidHandle ∧
    (∀ c, NtIoFileStreamErrnoCheck (.eother c) = .eioInvalidHandle) ∧
    (∀ (size acc : Nat) (n : Int) (rest : List Attempt),
      acc < size → n < 0 →
      fileReadLoop size ((n, Errno.eintr) :: rest) acc =
        .raised .eioInterrupted) := by
  refine ⟨rfl, rfl, rfl, rfl, rfl, rfl, rfl, rfl, rfl, fun c => rfl, ?_⟩
  intro size acc n rest hacc hn
  rw [fileReadLoop_cons_neg size acc n Errno.eintr rest hacc hn]
  rfl

/-- Witness for C2 at a concrete input. -/
theorem ntIoFileStreamErrnoCheck_table_witness :
    fileReadLoop 4 [((-1 : Int), Errno.eintr)] 0 = .raised .eioInterrupted :=
  ntIoFileStreamErrnoCheck_table.2.2.2.2.2.2.2.2.2.2 4 0 (-1) []
    (by decide) (by decide)

/-- C6: a read request strictly larger than the remaining length fails
StreamClosed and changes nothing, and on a 5-byte region a `read 6` fails
while a subsequent `read 5` still returns all 5 bytes. -/
theorem ntIoInputBuffer_read_overflow :
    (∀ (b : NtIoInputBuffer) (n : Nat), b.size < n →
      b.read n = (.error .eioStreamClosed, b)) ∧
    (NtIoInputBuffer.ofSpan [1, 2, 3, 4, 5]).read 6 =
      (.error .eioStreamClosed, NtIoInputBuffer.ofSpan [1, 2, 3, 4, 5]) ∧
    ((((NtIoInputBuffer.ofSpan [1, 2, 3, 4, 5]).read 6).2.read 5).1 =
      .ok [1, 2, 3, 4, 5]) := by
  refine ⟨?_, by rfl, by rfl⟩
  intro b n h
  unfold NtIoInputBuffer.read
  rw [if_pos h]

/-- Witness for C6 at a concrete input. -/
theorem ntIoInputBuffer_read_overflow_witness :
    (NtIoInputBuffer.ofSpan [1, 2, 3]).read 4 =
      (.error .eioStreamClosed, NtIoInputBuffer.ofSpan [1, 2, 3]) :=
  ntIoInputBuffer_read_overflow.1 (NtIoInputBuffer.ofSpan [1, 2, 3]) 4
    (by decide)

/-- C7: a read request within the remaining length succeeds, returns
exactly the requested bytes from the current position, advances the
pointer by the requested size and decreases the remaining length by it. -/
theorem ntIoInputBuffer_read_success (b : NtIoInputBuffer) (n : Nat)
    (hn : n ≤ b.size) (hwf : b.off + b.size ≤ b.region.length) :
    (b.read n).1 = .ok ((b.region.drop b.off).take n) ∧
    ((b.region.drop b.off).take n).length = n ∧
    (b.read n).2.region = b.region ∧
    (b.read n).2.off = b.off + n ∧
    (b.read n).2.size = b.size - n := by
  have hnot : ¬ n > b.size := by omega
  unfold NtIoInputBuffer.read
  rw [if_neg hnot]
  refine ⟨rfl, ?_, rfl, rfl, rfl⟩
  rw [List.length_take, List.length_drop]
  omega

/-- Witness for C7 at a concrete input. -/
theorem ntIoInputBuffer_read_success_witness :
    ((NtIoInputBuffer.ofSpan [7, 8, 9]).read 2).1 = .ok [7, 8] ∧
    ((NtIoInputBuffer.ofSpan [7, 8, 9]).read 2).2.off = 2 ∧
    ((NtIoInputBuffer.ofSpan [7, 8, 9]).read 2).2.size = 1 := by
  have h := ntIoInputBuffer_read_success (NtIoInputBuffer.ofSpan [7, 8, 9]) 2
    (by decide) (by decide)
  exact ⟨h.1.trans (by rfl), h.2.2.2.1.trans (by rfl), h.2.2.2.2.trans (by rfl)⟩

/-- C3: a write of `size > 0` makes the length `currentLength + size`; the
target is the least multiple of `stepSize = 2 ^ (memoryStepping + 1)` at or
above the new length, computed by the bit-mask rounding; capacity becomes
that target exactly when the old capacity was smaller; the bytes land at
the tail; and with default stepping 5, writes of 10, 50, 10 bytes leave
length 70 and capacity 128. -/
theorem ntIoOutputBuffer_write_growth :
    (∀ (b : NtIoOutputBuffer) (data : List Byte), data ≠ [] →
      (NtIoOutputBuffer.write allocOk b data).1 = .ok () ∧
      (NtIoOutputBuffer.write allocOk b data).2.buffer = b.buffer ++ data ∧
      (NtIoOutputBuffer.write allocOk b data).2.buffer.length =
        b.buffer.length + data.length ∧
      (NtIoOutputBuffer.write allocOk b data).2.cap =
        (if b.cap <
            roundToStep (b.buffer.length + data.length) (b.stepSize - 1)
         then roundToStep (b.buffer.length + data.length) (b.stepSize - 1)
         else b.cap) ∧
      (b.stepSize ∣
          roundToStep (b.buffer.length + data.length) (b.stepSize - 1) ∧
        b.buffer.length + data.length ≤
          roundToStep (b.buffer.length + data.length) (b.stepSize - 1) ∧
        ∀ m, b.stepSize ∣ m → b.buffer.length + data.length ≤ m →
          roundToStep (b.buffer.length + data.length) (b.stepSize - 1) ≤ m)) ∧
    NtIoOutputBuffer.writeSeq allocOk (NtIoOutputBuffer.init 5)
      [List.replicate 10 0, List.replicate 50 0, List.replicate 10 0] =
      .ok { buffer := List.replicate 70 0, cap := 128, memoryStepping := 5 } := by
  refine ⟨?_, by rfl⟩
  intro b data hne
  have h0 : ¬ data.length = 0 := by
    simpa [List.length_eq_zero] using hne
  have hspec := roundToStep_least_multiple (b.buffer.length + data.length)
    (b.memoryStepping + 1)
  have hmask : b.stepSize - 1 = 2 ^ (b.memoryStepping + 1) - 1 := rfl
  have hstep : b.stepSize = 2 ^ (b.memoryStepping + 1) := rfl
  rw [← hmask, ← hstep] at hspec
  unfold NtIoOutputBuffer.write
  simp only [h0, if_false, allocOk, if_true]
  by_cases hcap :
      b.cap < roundToStep (b.buffer.length + data.length) (b.stepSize - 1)
  · simp only [if_pos hcap]
    exact ⟨trivial, trivial, by simp, trivial, hspec⟩
  · simp only [if_neg hcap]
    exact ⟨trivial, trivial, by simp, trivial, hspec⟩

/-- Witness for C3 at a concrete input. -/
theorem ntIoOutputBuffer_write_growth_witness :
    (NtIoOutputBuffer.write allocOk (NtIoOutputBuffer.init 5) [3, 4]).2.buffer
      = [3, 4] ∧
    (NtIoOutputBuffer.write allocOk (NtIoOutputBuffer.init 5) [3, 4]).2.cap
      = 64 := by
  have h := ntIoOutputBuffer_write_growth.1 (NtIoOutputBuffer.init 5) [3, 4]
    (by decide)
  exact ⟨h.2.1.trans (by rfl), (h.2.2.2.1).trans (by rfl)⟩

/-- C4: writing any chunking of a byte sequence `S` in order yields content
exactly `S`, the reported size is the total number of bytes written, and
reading the span back through an `NtIoInputBuffer` returns `S` unchanged. -/
theorem ntIoOutputBuffer_roundTrip (stepping : Nat)
    (chunks : List (List Byte)) :
    ∃ b', NtIoOutputBuffer.writeSeq allocOk (NtIoOutputBuffer.init stepping)
        chunks = .ok b' ∧
      b'.buffer = chunks.flatten ∧
      b'.buffer.length = (chunks.map List.length).sum ∧
      ((NtIoInputBuffer.ofSpan b'.buffer).read b'.buffer.length).1 =
        .ok b'.buffer := by
  obtain ⟨b', hseq, hbuf, -⟩ :=
    writeSeq_allocOk_spec (NtIoOutputBuffer.init stepping) chunks
  have hbuf' : b'.buffer = chunks.flatten := by
    simpa [NtIoOutputBuffer.init] using hbuf
  refine ⟨b', hseq, hbuf', by simp [hbuf'], ?_⟩
  unfold NtIoInputBuffer.read NtIoInputBuffer.ofSpan
  simp

set_option maxRecDepth 8000 in
/-- C5 counterexample: a single write of 129 bytes at default stepping 5
leaves capacity 192 = 3 x 64, which is not `2 ^ j` times the step size for
any `j`, refuting the power-of-two-multiple part of the claim. -/
theorem ntIoOutputBuffer_powTwo_counterexample :
    NtIoOutputBuffer.writeSeq allocOk (NtIoOutputBuffer.init 5)
      [List.replicate 129 0] =
      .ok { buffer := List.replicate 129 0, cap := 192,
            memoryStepping := 5 } ∧
    ¬ ∃ j : Nat,
      (192 : Nat) = 2 ^ j * NtIoOutputBuffer.stepSize
        { buffer := List.replicate 129 0, cap := 192,
          memoryStepping := 5 } := by
  refine ⟨by rfl, ?_⟩
  rintro ⟨j, hj⟩
  rw [NtIoOutputBuffer.stepSize] at hj
  norm_num at hj
  rcases j with _ | _ | j
  · norm_num at hj
  · norm_num at hj
  · have h4 : 4 ≤ 2 ^ (j + 1 + 1) := by
      calc (4 : Nat) = 2 ^ 2 := by norm_num
      _ ≤ 2 ^ (j + 1 + 1) := Nat.pow_le_pow_right (by norm_num) (by omega)
    omega

/-- C5 amended: after every sequence of writes the capacity is a multiple
of the step size `2 ^ (memoryStepping + 1)` and at least the content
length. -/
theorem ntIoOutputBuffer_capacity_multiple (stepping : Nat)
    (chunks : List (List Byte)) (b' : NtIoOutputBuffer)
    (h : NtIoOutputBuffer.writeSeq allocOk (NtIoOutputBuffer.init stepping)
      chunks = .ok b') :
    2 ^ (stepping + 1) ∣ b'.cap ∧ b'.buffer.length ≤ b'.cap := by
  have hinv : CapInv b' :=
    writeSeq_preserves_capInv allocOk chunks (NtIoOutputBuffer.init stepping)
      b' ⟨dvd_zero _, le_rfl⟩ h
  have hstep := writeSeq_memoryStepping allocOk chunks
    (NtIoOutputBuffer.init stepping) b' h
  obtain ⟨hdvd, hlen⟩ := hinv
  rw [NtIoOutputBuffer.stepSize, hstep] at hdvd
  exact ⟨hdvd, hlen⟩

/-- Witness for the amended C5 at a concrete input. -/
theorem ntIoOutputBuffer_capacity_multiple_witness :
    2 ^ (5 + 1) ∣ (64 : Nat) ∧ (1 : Nat) ≤ 64 := by
  have h := ntIoOutputBuffer_capacity_multiple 5 [[0]]
    { buffer := [0], cap := 64, memoryStepping := 5 } (by rfl)
  exact h

/-- C8: if growth is needed and allocation fails, the write raises
AllocationFailure and leaves content, length and capacity unchanged. -/
theorem ntIoOutputBuffer_write_allocFailure (canAlloc : Nat → Bool)
    (b : NtIoOutputBuffer) (data : List Byte) (hne : data ≠ [])
    (hgrow : b.cap <
      roundToStep (b.buffer.length + data.length) (b.stepSize - 1))
    (hfail : canAlloc
      (roundToStep (b.buffer.length + data.length) (b.stepSize - 1)) =
      false) :
    NtIoOutputBuffer.write canAlloc b data = (.error .eioAllocation, b) := by
  have h0 : ¬ data.length = 0 := by
    simpa [List.length_eq_zero] using hne
  unfold NtIoOutputBuffer.write
  simp only [h0, if_false]
  rw [if_pos hgrow, hfail]
  rfl

/-- Witness for C8 at a concrete input. -/
theorem ntIoOutputBuffer_write_allocFailure_witness :
    NtIoOutputBuffer.write (fun _ => false) (NtIoOutputBuffer.init 5) [0] =
      (.error .eioAllocation, NtIoOutputBuffer.init 5) :=
  ntIoOutputBuffer_write_allocFailure (fun _ => false)
    (NtIoOutputBuffer.init 5) [0] (by decide) (by decide) rfl

/-- C9: zero-size requests are successful no-ops on every backend: buffer
write, buffer read, and the file-stream loops, which perform no underlying
attempt. -/
theorem zeroSize_noop :
    (∀ (canAlloc : Nat → Bool) (b : NtIoOutputBuffer),
      NtIoOutputBuffer.write canAlloc b [] = (.ok (), b)) ∧
    (∀ b : NtIoInputBuffer, b.read 0 = (.ok [], b)) ∧
    (∀ attempts : List Attempt,
      NtIoFileStream.read 0 attempts = .completed 0) ∧
    (∀ attempts : List Attempt,
      NtIoFileStream.write 0 attempts = .completed 0) := by
  refine ⟨?_, ?_, ?_, ?_⟩
  · intro canAlloc b
    unfold NtIoOutputBuffer.write
    simp
  · intro b
    unfold NtIoInputBuffer.read
    simp
  · intro attempts
    unfold NtIoFileStream.read
    rw [fileReadLoop.eq_def]
    simp
  · intro attempts
    unfold NtIoFileStream.write
    rw [fileWriteLoop.eq_def]
    simp

/-- C10: with `mask = stepSize - 1` for `stepSize = 2 ^ k`, the rounding
expression equals the least multiple of the step size at or above
`newSize` whenever `newSize + mask` does not overflow the `w`-bit word,
and wraps to a value below `newSize` (in fact to zero) whenever it does. -/
theorem roundToStep_wraparound (w k n : Nat) (_hk : 0 < k) (hkw : k < w) :
    (n + (2 ^ k - 1) < 2 ^ w →
      roundToStepW w n (2 ^ k - 1) = roundToStep n (2 ^ k - 1) ∧
      2 ^ k ∣ roundToStepW w n (2 ^ k - 1) ∧
      n ≤ roundToStepW w n (2 ^ k - 1) ∧
      ∀ m, 2 ^ k ∣ m → n ≤ m → roundToStepW w n (2 ^ k - 1) ≤ m) ∧
    (n < 2 ^ w → 2 ^ w ≤ n + (2 ^ k - 1) →
      roundToStepW w n (2 ^ k - 1) < n) := by
  constructor
  · intro hov
    have he := roundToStepW_eq_of_no_overflow w n (2 ^ k - 1) hov
    have hspec := roundToStep_least_multiple n k
    rw [he]
    exact ⟨rfl, hspec.1, hspec.2.1, hspec.2.2⟩
  · intro hn hov
    have hz := roundToStepW_overflow_eq_zero w n k (le_of_lt hkw) hn hov
    have hkpow : 2 ^ k < 2 ^ w :=
      Nat.pow_lt_pow_right (by norm_num) hkw
    have hkpos : 0 < 2 ^ k := Nat.two_pow_pos k
    rw [hz]
    omega

/-- Witness for C10 at concrete inputs (an 8-bit word, step size 64). -/
theorem roundToStep_wraparound_witness :
    roundToStepW 8 10 (2 ^ 6 - 1) = roundToStep 10 (2 ^ 6 - 1) ∧
    roundToStepW 8 250 (2 ^ 6 - 1) < 250 :=
  ⟨((roundToStep_wraparound 8 6 10 (by decide) (by decide)).1
      (by decide)).1,
    (roundToStep_wraparound 8 6 250 (by decide) (by decide)).2
      (by decide) (by decide)⟩
